import Mathlib

/-!
Verification of the CSV-to-tensor preprocessing pipeline, the sequence
builder and the accuracy evaluator of a browser stock-prediction demo.

The repository contains several drafts of the same classes:
the file data-loader.js holds a first draft (row cap, symbol cap, no
normalization) and a second draft (pivot via Array.find, min-max
normalization without a range guard, keep-all windowing), and a further
unnamed variant (called part 002 below) refines the second draft with
sorted symbols, a range guard in the normalization and a validity filter
on windows.  The definitions below embed each variant that a claim cites,
with JS objects rendered as association lists, JS numbers as rationals,
and undefined rendered as Option.none.
-/

namespace StockGru

/-- Body of the deduplication keeping the first occurrence of each element,
the order observed when spreading a JS Set built from an array; seen holds
the elements already emitted. -/
def dedupFirstAux {α : Type} [DecidableEq α] : List α → List α → List α
  | [], _ => []
  | a :: l, seen => if a ∈ seen then dedupFirstAux l seen else a :: dedupFirstAux l (a :: seen)

/-- Deduplication keeping the first occurrence of each element. -/
def dedupKeepFirst {α : Type} [DecidableEq α] (l : List α) : List α :=
  dedupFirstAux l []

theorem mem_dedupFirstAux {α : Type} [DecidableEq α] (x : α) :
    ∀ (l seen : List α), x ∈ dedupFirstAux l seen ↔ x ∈ l ∧ x ∉ seen := by
  intro l
  induction l with
  | nil => intro seen; simp [dedupFirstAux]
  | cons a t ih =>
    intro seen
    rw [dedupFirstAux]
    by_cases ha : a ∈ seen
    · rw [if_pos ha, ih]
      constructor
      · rintro ⟨h1, h2⟩
        exact ⟨List.mem_cons_of_mem a h1, h2⟩
      · rintro ⟨h1, h2⟩
        rcases List.mem_cons.mp h1 with h | h
        · exact absurd (h ▸ ha) h2
        · exact ⟨h, h2⟩
    · rw [if_neg ha]
      by_cases hxa : x = a
      · subst hxa
        constructor
        · intro _
          exact ⟨List.mem_cons_self x t, ha⟩
        · intro _
          exact List.mem_cons_self x _
      · simp only [List.mem_cons, hxa, false_or]
        rw [ih]
        simp [hxa]

theorem nodup_dedupFirstAux {α : Type} [DecidableEq α] :
    ∀ (l seen : List α), (dedupFirstAux l seen).Nodup := by
  intro l
  induction l with
  | nil => intro seen; simp [dedupFirstAux]
  | cons a t ih =>
    intro seen
    rw [dedupFirstAux]
    by_cases ha : a ∈ seen
    · rw [if_pos ha]; exact ih seen
    · rw [if_neg ha]
      refine List.nodup_cons.mpr ⟨?_, ih (a :: seen)⟩
      rw [mem_dedupFirstAux]
      rintro ⟨_, h2⟩
      exact h2 (List.mem_cons_self a seen)

theorem mem_dedupKeepFirst {α : Type} [DecidableEq α] (x : α) (l : List α) :
    x ∈ dedupKeepFirst l ↔ x ∈ l := by
  rw [dedupKeepFirst, mem_dedupFirstAux]
  simp

theorem nodup_dedupKeepFirst {α : Type} [DecidableEq α] (l : List α) :
    (dedupKeepFirst l).Nodup :=
  nodup_dedupFirstAux l []

theorem toFinset_dedupKeepFirst {α : Type} [DecidableEq α] (l : List α) :
    (dedupKeepFirst l).toFinset = l.toFinset := by
  apply Finset.ext
  intro x
  simp [List.mem_toFinset, mem_dedupKeepFirst]

theorem length_dedupKeepFirst_eq_card {α : Type} [DecidableEq α] (l : List α) :
    (dedupKeepFirst l).length = l.toFinset.card := by
  rw [← toFinset_dedupKeepFirst l, List.toFinset_card_of_nodup (nodup_dedupKeepFirst l)]

/-- Code-unit comparison underlying the default JS sort on strings: true
when the first character list is less than or equal to the second in the
lexicographic order on numeric character codes. -/
def charListLe : List Char → List Char → Bool
  | [], _ => true
  | _ :: _, [] => false
  | a :: as, b :: bs =>
    if a.toNat < b.toNat then true
    else if b.toNat < a.toNat then false
    else charListLe as bs

/-- Strict code-unit comparison on character lists. -/
def charListLt : List Char → List Char → Bool
  | [], [] => false
  | [], _ :: _ => true
  | _ :: _, [] => false
  | a :: as, b :: bs =>
    if a.toNat < b.toNat then true
    else if b.toNat < a.toNat then false
    else charListLt as bs

/-- String comparison of the default JS sort. -/
def jsStrLe (a b : String) : Bool := charListLe a.data b.data

/-- Strict string comparison: a is strictly earlier than b in JS sort
order. -/
def jsStrLt (a b : String) : Bool := charListLt a.data b.data

theorem charListLe_total : ∀ (x y : List Char),
    charListLe x y = true ∨ charListLe y x = true
  | [], _ => Or.inl rfl
  | _ :: _, [] => Or.inr rfl
  | a :: as, b :: bs => by
    rw [charListLe, charListLe]
    rcases Nat.lt_trichotomy a.toNat b.toNat with h | h | h
    · left; rw [if_pos h]
    · rw [if_neg (by omega), if_neg (by omega), if_neg (by omega), if_neg (by omega)]
      exact charListLe_total as bs
    · right; rw [if_pos h]

theorem charListLe_trans : ∀ (x y z : List Char),
    charListLe x y = true → charListLe y z = true → charListLe x z = true
  | [], _, _ => fun _ _ => rfl
  | a :: as, [], _ => fun h _ => by rw [charListLe] at h; cases h
  | a :: as, b :: bs, [] => fun _ h => by rw [charListLe] at h; cases h
  | a :: as, b :: bs, c :: cs => by
    rw [charListLe, charListLe, charListLe]
    intro h1 h2
    rcases Nat.lt_trichotomy a.toNat b.toNat with hab | hab | hab
    · rcases Nat.lt_trichotomy b.toNat c.toNat with hbc | hbc | hbc
      · rw [if_pos (by omega)]
      · rw [if_pos (by omega)]
      · rw [if_neg (by omega), if_pos hbc] at h2; cases h2
    · rcases Nat.lt_trichotomy b.toNat c.toNat with hbc | hbc | hbc
      · rw [if_pos (by omega)]
      · rw [if_neg (by omega), if_neg (by omega)]
        rw [if_neg (by omega), if_neg (by omega)] at h1
        rw [if_neg (by omega), if_neg (by omega)] at h2
        exact charListLe_trans as bs cs h1 h2
      · rw [if_neg (by omega), if_pos hbc] at h2; cases h2
    · rw [if_neg (by omega), if_pos hab] at h1; cases h1

theorem charListLe_antisymm : ∀ (x y : List Char),
    charListLe x y = true → charListLe y x = true → x = y
  | [], [] => fun _ _ => rfl
  | [], _ :: _ => fun _ h => by rw [charListLe] at h; cases h
  | _ :: _, [] => fun h _ => by rw [charListLe] at h; cases h
  | a :: as, b :: bs => by
    rw [charListLe, charListLe]
    intro h1 h2
    rcases Nat.lt_trichotomy a.toNat b.toNat with hab | hab | hab
    · rw [if_neg (by omega), if_pos hab] at h2; cases h2
    · rw [if_neg (by omega), if_neg (by omega)] at h1
      rw [if_neg (by omega), if_neg (by omega)] at h2
      have hchar : a = b := Char.ext (UInt32.toNat.inj hab)
      rw [hchar, charListLe_antisymm as bs h1 h2]
    · rw [if_neg (by omega), if_pos hab] at h1; cases h1

theorem charListLt_of_le_of_ne : ∀ (x y : List Char),
    charListLe x y = true → x ≠ y → charListLt x y = true
  | [], [] => fun _ h => absurd rfl h
  | [], _ :: _ => fun _ _ => rfl
  | _ :: _, [] => fun h _ => by rw [charListLe] at h; cases h
  | a :: as, b :: bs => by
    rw [charListLe, charListLt]
    intro h1 hne
    rcases Nat.lt_trichotomy a.toNat b.toNat with hab | hab | hab
    · rw [if_pos hab]
    · rw [if_neg (by omega), if_neg (by omega)] at h1 ⊢
      have hchar : a = b := Char.ext (UInt32.toNat.inj hab)
      subst hchar
      exact charListLt_of_le_of_ne as bs h1 (fun he => hne (by rw [he]))
    · rw [if_neg (by omega), if_pos hab] at h1; cases h1

theorem jsStrLt_of_le_of_ne (a b : String) (h1 : jsStrLe a b = true) (h2 : a ≠ b) :
    jsStrLt a b = true :=
  charListLt_of_le_of_ne a.data b.data h1 (fun he => h2 (String.ext he))

/-- Sorted set of the distinct elements of a list: the JS idiom of spreading
a Set into an array and calling sort(), which compares strings by character
codes. -/
def sortedDistinct (l : List String) : List String :=
  List.insertionSort (fun a b => jsStrLe a b = true) (dedupKeepFirst l)

theorem mem_sortedDistinct (x : String) (l : List String) :
    x ∈ sortedDistinct l ↔ x ∈ l := by
  rw [sortedDistinct, List.mem_insertionSort, mem_dedupKeepFirst]

theorem nodup_sortedDistinct (l : List String) : (sortedDistinct l).Nodup :=
  (List.perm_insertionSort _ _).nodup_iff.mpr (nodup_dedupKeepFirst l)

theorem sorted_sortedDistinct (l : List String) :
    List.Sorted (fun a b => jsStrLe a b = true) (sortedDistinct l) := by
  have htot : IsTotal String (fun a b => jsStrLe a b = true) :=
    ⟨fun a b => charListLe_total a.data b.data⟩
  have htrans : IsTrans String (fun a b => jsStrLe a b = true) :=
    ⟨fun a b c => charListLe_trans a.data b.data c.data⟩
  exact List.sorted_insertionSort _ _

theorem sortedDistinct_strict (l : List String) :
    List.Pairwise (fun a b => jsStrLt a b = true) (sortedDistinct l) := by
  have hs := sorted_sortedDistinct l
  have hn := nodup_sortedDistinct l
  exact List.Pairwise.imp₂ (fun a b hle hne => jsStrLt_of_le_of_ne a b hle hne) hs hn

theorem length_sortedDistinct (l : List String) :
    (sortedDistinct l).length = l.toFinset.card := by
  rw [sortedDistinct, List.length_insertionSort, length_dedupKeepFirst_eq_card]

/-- Open and close price data for one date and one symbol, the value stored
in the pivoted object. -/
structure Cell where
  Open : ℚ
  Close : ℚ
deriving DecidableEq, Repr

/-- Typed CSV row after numeric parsing: fields Date, Symbol, Open, Close.
The source applies parseFloat when storing rows into the pivot; open and
close are carried here as the parsed rational values. -/
structure Row where
  Date : String
  Symbol : String
  Open : ℚ
  Close : ℚ
deriving DecidableEq, Repr

/-- Nested JS object of shape date to symbol to cell, rendered as nested
association lists. -/
def Panel : Type := List (String × List (String × Cell))

/-- Property read with optional chaining, as in pivotedData[date]?.[symbol]. -/
def getCell (p : Panel) (d s : String) : Option Cell :=
  (p.lookup d).bind (fun inner => inner.lookup s)

/-- Construction shared by the pivot and the normalization: an outer loop
over the date list, an inner loop over the symbol list, and a cell stored
only when the generating function produces one. -/
def mkPanel (dates syms : List String) (f : String → String → Option Cell) : Panel :=
  dates.map (fun d => (d, syms.filterMap (fun s => (f d s).map (fun c => (s, c)))))

theorem lookup_cons_ne {β : Type} (k a : String) (b : β) (es : List (String × β))
    (hne : a ≠ k) : ((k, b) :: es).lookup a = es.lookup a := by
  rw [List.lookup_cons]
  have hb : (a == k) = false := beq_false_of_ne hne
  rw [hb]

theorem lookup_filterMap_syms (syms : List String) (g : String → Option Cell)
    (s : String) (hs : s ∈ syms) (hns : syms.Nodup) :
    (syms.filterMap (fun t => (g t).map (fun c => (t, c)))).lookup s = g s := by
  induction syms with
  | nil => cases hs
  | cons a l ih =>
    rw [List.nodup_cons] at hns
    rw [List.filterMap_cons]
    rcases List.mem_cons.mp hs with h | h
    · subst h
      cases hga : g s with
      | none =>
        simp only [Option.map_none']
        rw [List.lookup_eq_none_iff.mpr]
        intro k hk
        rcases List.mem_filterMap.mp hk with ⟨t, ht, hc⟩
        cases hgt : g t with
        | none => rw [hgt] at hc; cases hc
        | some v =>
          rw [hgt] at hc
          cases hc
          have hts : t ≠ s := fun he => hns.1 (he ▸ ht)
          simpa [beq_iff_eq] using Ne.symm hts
      | some c =>
        simp only [Option.map_some']
        rw [List.lookup_cons_self]
    · have hne : s ≠ a := fun he => hns.1 (he ▸ h)
      cases hga : g a with
      | none =>
        simp only [Option.map_none']
        exact ih h hns.2
      | some c =>
        simp only [Option.map_some']
        rw [lookup_cons_ne a s c _ hne]
        exact ih h hns.2

theorem getCell_mkPanel (dates syms : List String) (f : String → String → Option Cell)
    (d s : String) (hd : d ∈ dates) (hnd : dates.Nodup)
    (hs : s ∈ syms) (hns : syms.Nodup) :
    getCell (mkPanel dates syms f) d s = f d s := by
  rw [getCell, mkPanel]
  have hlk : (dates.map (fun e => (e, syms.filterMap (fun t => (f e t).map (fun c => (t, c)))))).lookup d
      = some (syms.filterMap (fun t => (f d t).map (fun c => (t, c)))) := by
    induction dates with
    | nil => cases hd
    | cons a l ih =>
      rw [List.nodup_cons] at hnd
      rcases List.mem_cons.mp hd with h | h
      · subst h
        rw [List.map_cons, List.lookup_cons_self]
      · have hne : d ≠ a := fun he => hnd.1 (he ▸ h)
        rw [List.map_cons, lookup_cons_ne a d _ _ hne]
        exact ih h hnd.2
  rw [hlk, Option.some_bind]
  exact lookup_filterMap_syms syms (f d) s hs hns

/-- Fold computing Math.min over a spread array; the callers below guard
against the empty case exactly where the source does. -/
def listMin : List ℚ → ℚ
  | [] => 0
  | a :: l => l.foldl min a

/-- Fold computing Math.max over a spread array. -/
def listMax : List ℚ → ℚ
  | [] => 0
  | a :: l => l.foldl max a

/-- Per-symbol normalization statistics of minMaxNormalize. -/
structure Stats where
  openMin : ℚ
  openMax : ℚ
  closeMin : ℚ
  closeMax : ℚ
deriving DecidableEq, Repr

/-- Open values observed for one symbol across the date index, the JS map
over dates followed by the filter dropping undefined reads. -/
def observedOpens (p : Panel) (dates : List String) (s : String) : List ℚ :=
  dates.filterMap (fun d => (getCell p d s).map (fun c => c.Open))

/-- Close values observed for one symbol across the date index. -/
def observedCloses (p : Panel) (dates : List String) (s : String) : List ℚ :=
  dates.filterMap (fun d => (getCell p d s).map (fun c => c.Close))

/-- Statistics computation of the part 002 minMaxNormalize: min and max of
the observed opens and closes, defaulting to the degenerate range 0..1 when
the symbol has no observed data. -/
def stockStats (p : Panel) (dates : List String) (s : String) : Stats :=
  let opens := observedOpens p dates s
  let closes := observedCloses p dates s
  if opens.isEmpty || closes.isEmpty then ⟨0, 1, 0, 1⟩
  else ⟨listMin opens, listMax opens, listMin closes, listMax closes⟩

/-- JS expression x || 1 on a number: yields 1 exactly when the value is 0. -/
def orOne (x : ℚ) : ℚ := if x = 0 then 1 else x

/-- Min-max scaling of one cell with the part 002 range guard:
value minus min divided by (max - min || 1) per feature. -/
def normalizeCell (st : Stats) (c : Cell) : Cell :=
  ⟨(c.Open - st.openMin) / orOne (st.openMax - st.openMin),
   (c.Close - st.closeMin) / orOne (st.closeMax - st.closeMin)⟩

/-- minMaxNormalize of the part 002 variant: cells present in the pivot are
scaled per symbol, absent cells stay absent. -/
def minMaxNormalize (p : Panel) (dates syms : List String) : Panel :=
  mkPanel dates syms (fun d s => (getCell p d s).map (normalizeCell (stockStats p dates s)))

/-- Cell generator of the pivot in the refined drafts: Array.prototype.find
returns the FIRST row matching the (date, symbol) pair. -/
def pivotCellFn (rows : List Row) (d s : String) : Option Cell :=
  (rows.find? (fun r => r.Date == d && r.Symbol == s)).map (fun r => ⟨r.Open, r.Close⟩)

/-- Pivot of the refined drafts: dates crossed with symbols, each cell the
first matching row if any. -/
def pivotPanel (rows : List Row) (dates syms : List String) : Panel :=
  mkPanel dates syms (pivotCellFn rows)

/-- Feature vector for one (possibly out-of-range) date: per symbol the
normalized open and close, or the (0, 0) padding when the cell or the date
is missing. -/
def featuresAt (panel : String → String → Option Cell) (syms : List String)
    (od : Option String) : List ℚ :=
  syms.flatMap (fun s =>
    match od.bind (fun d => panel d s) with
    | some c => [c.Open, c.Close]
    | none => [0, 0])

/-- Input sequence of the window starting at index i: 12 feature vectors for
dates i to i+11. -/
def windowInput (dates syms : List String) (panel : String → String → Option Cell)
    (i : Nat) : List (List ℚ) :=
  (List.range 12).map (fun j => featuresAt panel syms (dates.get? (i + j)))

/-- Base close price used by the target construction: the normalized close
at the target date, or 0 when the date or the cell is missing (the JS
expression value || 0). -/
def baseClose (panel : String → String → Option Cell) (od : Option String)
    (s : String) : ℚ :=
  (((od.bind (fun d => panel d s)).map (fun c => c.Close)).getD 0)

/-- Target bit for one symbol and one day offset (off = 0, 1, 2 standing for
offsets 1, 2, 3): 1 when the future close is present and exceeds the base
close, otherwise 0. A missing future value gives 0; a missing base value is
replaced by 0 before the comparison. -/
def targetBit (dates : List String) (panel : String → String → Option Cell)
    (i off : Nat) (s : String) : ℚ :=
  match (dates.get? (i + 12 + (off + 1))).bind (fun d => panel d s) with
  | some c => if baseClose panel (dates.get? (i + 12)) s < c.Close then 1 else 0
  | none => 0

/-- Target vector of the window starting at index i: for each of the 3 day
offsets, one bit per symbol, flattened in that order. -/
def windowTarget (dates syms : List String) (panel : String → String → Option Cell)
    (i : Nat) : List ℚ :=
  (List.range 3).flatMap (fun off => syms.map (fun s => targetBit dates panel i off s))

/-- Produced dataset: train and test arrays plus the symbol list; the tensor
wrappers only record shapes and are omitted. -/
structure Dataset where
  X_train : List (List (List ℚ))
  y_train : List (List ℚ)
  X_test : List (List (List ℚ))
  y_test : List (List ℚ)
  symbols : List String
deriving DecidableEq, Repr

/-- createSequences of the second draft in data-loader.js: every window with
start index below dateIndex.length - 15 is kept, and the chronological
train/test split cuts at Math.floor(count * 0.8). For every count below
2 to the 50th power the IEEE double product count * 0.8 floors to the integer
4 * count / 5, which is used here. The normalized panel held in the mutable
field this.normalizedData is passed as the function argument panel. -/
def createSequences (dates syms : List String)
    (panel : String → String → Option Cell) : Dataset :=
  let sequences := (List.range (dates.length - 15)).map (windowInput dates syms panel)
  let targets := (List.range (dates.length - 15)).map (windowTarget dates syms panel)
  let splitIndex := 4 * sequences.length / 5
  ⟨sequences.take splitIndex, targets.take splitIndex,
   sequences.drop splitIndex, targets.drop splitIndex, syms⟩

/-- Validity flag of the part 002 window filter for the input block: false
when any (date, symbol) cell of the 12 input days is missing. -/
def validSequenceFlag (dates syms : List String)
    (panel : String → String → Option Cell) (i : Nat) : Bool :=
  (List.range 12).all (fun j =>
    syms.all (fun s => ((dates.get? (i + j)).bind (fun d => panel d s)).isSome))

/-- Validity flag of the part 002 window filter for the target block: false
when any future close is missing (the base close is never undefined because
of the || 0 default). -/
def validTargetFlag (dates syms : List String)
    (panel : String → String → Option Cell) (i : Nat) : Bool :=
  (List.range 3).all (fun off =>
    syms.all (fun s => ((dates.get? (i + 12 + (off + 1))).bind (fun d => panel d s)).isSome))

/-- createSequences of the part 002 variant: windows are kept only when both
validity flags hold, the sequence has exactly 12 vectors and the target has
exactly 30 entries (the literal 30 hard-codes 10 symbols times 3 days). -/
def createSequencesP2 (dates syms : List String)
    (panel : String → String → Option Cell) : Dataset :=
  let accepted := (List.range (dates.length - 15)).filter (fun i =>
    validSequenceFlag dates syms panel i && validTargetFlag dates syms panel i
      && ((windowInput dates syms panel i).length == 12)
      && ((windowTarget dates syms panel i).length == 30))
  let sequences := accepted.map (windowInput dates syms panel)
  let targets := accepted.map (windowTarget dates syms panel)
  let splitIndex := 4 * sequences.length / 5
  ⟨sequences.take splitIndex, targets.take splitIndex,
   sequences.drop splitIndex, targets.drop splitIndex, syms⟩

/-- Symbol extraction of the part 002 preprocessData: spread of a Set
followed by sort(). -/
def stockSymbolsP2 (rows : List Row) : List String :=
  sortedDistinct (rows.map (fun r => r.Symbol))

/-- Date index of the refined drafts: sorted distinct dates. -/
def allDates (rows : List Row) : List String :=
  sortedDistinct (rows.map (fun r => r.Date))

/-- preprocessData of the part 002 variant: derive sorted distinct symbols
and dates, pivot, normalize, then build sequences. -/
def preprocessData (rows : List Row) : Dataset :=
  let syms := stockSymbolsP2 rows
  let dates := allDates rows
  let pivoted := pivotPanel rows dates syms
  let normalized := minMaxNormalize pivoted dates syms
  createSequencesP2 dates syms (fun d s => getCell normalized d s)

/-- Whitespace test of the JS trim methods: space, tab, newline or carriage
return (the whitespace forms relevant to CSV text). -/
def isJsSpace (c : Char) : Bool :=
  c == ' ' || c == '\t' || c == '\n' || c == '\r'

/-- Model of JS String.prototype.trim on the character list: drop whitespace
from both ends. -/
def jsTrim (l : List Char) : List Char :=
  ((l.dropWhile isJsSpace).reverse.dropWhile isJsSpace).reverse

/-- Model of JS String.prototype.split with a one-character separator:
splitting never yields an empty list (the empty text gives one empty
field). -/
def splitOnChar (sep : Char) : List Char → List (List Char)
  | [] => [[]]
  | c :: r =>
    match splitOnChar sep r with
    | [] => [[c]]
    | w :: ws => if c = sep then [] :: w :: ws else (c :: w) :: ws

/-- Lines of the CSV text: trim, then split on the newline character. -/
def jsLines (text : String) : List String :=
  (splitOnChar '\n' (jsTrim text.data)).map (fun w => String.mk w)

/-- Fields of one CSV line: split on commas and trim each field. -/
def splitCommaTrim (line : String) : List String :=
  (splitOnChar ',' line.data).map (fun w => String.mk (jsTrim w))

/-- parseCSV of the part 002 variant: split on newlines after trimming, the
first line is the header, every further line whose field count matches the
header becomes a row object, modelled as the association list pairing header
names with trimmed field values. Lines with a mismatched field count are
skipped; there is no minimum line count check and no error path. -/
def parseCSV (csvText : String) : List (List (String × String)) :=
  let lines := jsLines csvText
  let headers := splitCommaTrim (lines.headD "")
  (lines.drop 1).filterMap (fun line =>
    let values := splitCommaTrim line
    if values.length = headers.length then some (headers.zip values) else none)

/-- Digit run folded to a natural number. -/
def digitsVal (l : List Char) : Nat :=
  l.foldl (fun n c => 10 * n + (c.toNat - 48)) 0

/-- Model of the JS parseFloat builtin restricted to plain decimal literals:
optional sign, digit run, optional fractional digit run; none models NaN.
The claims checked here depend only on whether parsing succeeds. -/
def jsParseFloat (s : String) : Option ℚ :=
  let cs := s.toList
  let sr : ℚ × List Char :=
    match cs with
    | '-' :: t => (-1, t)
    | '+' :: t => (1, t)
    | t => (1, t)
  let ip := sr.2.takeWhile (fun c => c.isDigit)
  let rest := sr.2.dropWhile (fun c => c.isDigit)
  let fp :=
    match rest with
    | '.' :: t => t.takeWhile (fun c => c.isDigit)
    | _ => []
  if ip.isEmpty && fp.isEmpty then none
  else some (sr.1 * ((digitsVal ip : ℚ) + (digitsVal fp : ℚ) / (10 : ℚ) ^ fp.length))

/-- Row of the first-draft parser after numeric conversion: the Date field
may be absent (the first draft never checks it), Symbol is the checked
truthy field, Open and Close are the parseFloat results. -/
structure Row1 where
  Date : Option String
  Symbol : String
  Open : ℚ
  Close : ℚ
deriving Repr

/-- parseCSV of the first draft in data-loader.js: the loop bound
min(lines.length, 100) processes at most the first 99 data lines; a row is
kept only when its field count matches the header, its Open, Close and
Symbol fields are present and truthy (non-empty strings), and Open and
Close parse as numbers. -/
def parseCSV1 (csvText : String) : List Row1 :=
  let lines := jsLines csvText
  let headers := splitCommaTrim (lines.headD "")
  ((lines.drop 1).take 99).filterMap (fun line =>
    let values := splitCommaTrim line
    if values.length = headers.length then
      let row := headers.zip values
      match row.lookup "Open", row.lookup "Close", row.lookup "Symbol" with
      | some o, some c, some sy =>
        if o ≠ "" ∧ c ≠ "" ∧ sy ≠ "" then
          match jsParseFloat o, jsParseFloat c with
          | some ov, some cv => some ⟨row.lookup "Date", sy, ov, cv⟩
          | _, _ => none
        else none
      | _, _, _ => none
    else none)

/-- Symbol extraction of the first-draft preprocessData: distinct symbols in
first-occurrence order, capped at 10 by slice(0, 10). -/
def stockSymbols1 (rows : List Row1) : List String :=
  (dedupKeepFirst (rows.map (fun r => r.Symbol))).take 10

/-- Thresholded prediction bit read at flat index idx of sample i of the
prediction array: a value above 0.5 gives 1, anything else including an
out-of-range read gives 0 (undefined compares false against 0.5). -/
def predBitAt (preds : List (List ℚ)) (i idx : Nat) : ℚ :=
  match (preds.get? i).bind (fun r => r.get? idx) with
  | some v => if (1 : ℚ) / 2 < v then 1 else 0
  | none => 0

/-- Strict-equality comparison of the thresholded prediction against the
target entry: an out-of-range target read is undefined and never equals the
numeric prediction bit. -/
def isCorrectAt (preds targs : List (List ℚ)) (i idx : Nat) : Bool :=
  match (targs.get? i).bind (fun r => r.get? idx) with
  | some t => decide (predBitAt preds i idx = t)
  | none => false

/-- Inner loop of computeStockAccuracy over the 3 day offsets for one
sample, threading the (correct, total) counters. -/
def symbolStatsInner (preds targs : List (List ℚ)) (S sIdx i : Nat)
    (acc : Nat × Nat) : Nat × Nat :=
  (List.range 3).foldl (fun a day =>
    ((if isCorrectAt preds targs i (sIdx + day * S) then a.1 + 1 else a.1), a.2 + 1)) acc

/-- Counters accumulated by computeStockAccuracy for the symbol at index
sIdx over the first n samples. -/
def symbolStats (preds targs : List (List ℚ)) (S sIdx n : Nat) : Nat × Nat :=
  (List.range n).foldl (fun acc i => symbolStatsInner preds targs S sIdx i acc) (0, 0)

/-- computeStockAccuracy of gru.js: per symbol at its index, correct over
total across all samples and the 3 day offsets, at flat index
symbolIndex + day * symbols.length, predictions thresholded at 0.5. -/
def computeStockAccuracy (preds targs : List (List ℚ)) (symbols : List String) :
    List (String × ℚ) :=
  symbols.enum.map (fun p =>
    let st := symbolStats preds targs symbols.length p.1 preds.length
    (p.2, (st.1 : ℚ) / (st.2 : ℚ)))

/-- Tensor read used by computeStockAccuracy: arraySync on an absent object
raises a TypeError, modelled as an error result. -/
def arraySync (t : Option (List (List ℚ))) : Except String (List (List ℚ)) :=
  match t with
  | some a => Except.ok a
  | none => Except.error "TypeError"

/-- JS-level call of computeStockAccuracy with possibly absent tensors: both
arguments go through arraySync before the counting loops run. -/
def computeStockAccuracyJS (preds targs : Option (List (List ℚ)))
    (symbols : List String) : Except String (List (String × ℚ)) := do
  let p ← arraySync preds
  let t ← arraySync targs
  pure (computeStockAccuracy p t symbols)

/-- Number of correct (sample, day) pairs for the symbol at index sIdx as
the spec describes the count: all samples crossed with the 3 day offsets at
flat index sIdx + day * numSymbols. -/
def correctCount (preds targs : List (List ℚ)) (S sIdx : Nat) : Nat :=
  ((List.range preds.length).map (fun i =>
    (List.range 3).countP (fun day => isCorrectAt preds targs i (sIdx + day * S)))).sum

/-- Dates underlying the window starting at index i, following the spec
wording: the 12 input dates, the target date and the 3 future dates, that
is 16 consecutive entries of the date index starting at position i. -/
def specWindowDates (dates : List String) (i : Nat) : List String :=
  (dates.drop i).take 16

theorem foldl_min_le_init : ∀ (l : List ℚ) (a : ℚ), l.foldl min a ≤ a
  | [], a => le_refl a
  | b :: t, a => le_trans (foldl_min_le_init t (min a b)) (min_le_left a b)

theorem foldl_min_le_mem : ∀ (l : List ℚ) (x : ℚ), x ∈ l → ∀ (a : ℚ), l.foldl min a ≤ x := by
  intro l
  induction l with
  | nil => intro x hx; cases hx
  | cons b t ih =>
    intro x hx a
    rcases List.mem_cons.mp hx with h | h
    · subst h
      exact le_trans (foldl_min_le_init t (min a x)) (min_le_right a x)
    · exact ih x h (min a b)

theorem foldl_min_mem : ∀ (l : List ℚ) (a : ℚ), l.foldl min a ∈ a :: l := by
  intro l
  induction l with
  | nil => intro a; exact List.mem_singleton.mpr rfl
  | cons b t ih =>
    intro a
    have h := ih (min a b)
    rcases List.mem_cons.mp h with h | h
    · rcases min_choice a b with hm | hm
      · rw [List.foldl_cons, h, hm]; exact List.mem_cons_self a _
      · rw [List.foldl_cons, h, hm]
        exact List.mem_cons_of_mem a (List.mem_cons_self b t)
    · exact List.mem_cons_of_mem a (List.mem_cons_of_mem b h)

theorem le_foldl_max_init : ∀ (l : List ℚ) (a : ℚ), a ≤ l.foldl max a
  | [], a => le_refl a
  | b :: t, a => le_trans (le_max_left a b) (le_foldl_max_init t (max a b))

theorem mem_le_foldl_max : ∀ (l : List ℚ) (x : ℚ), x ∈ l → ∀ (a : ℚ), x ≤ l.foldl max a := by
  intro l
  induction l with
  | nil => intro x hx; cases hx
  | cons b t ih =>
    intro x hx a
    rcases List.mem_cons.mp hx with h | h
    · subst h
      exact le_trans (le_max_right a x) (le_foldl_max_init t (max a x))
    · exact ih x h (max a b)

theorem foldl_max_mem : ∀ (l : List ℚ) (a : ℚ), l.foldl max a ∈ a :: l := by
  intro l
  induction l with
  | nil => intro a; exact List.mem_singleton.mpr rfl
  | cons b t ih =>
    intro a
    have h := ih (max a b)
    rcases List.mem_cons.mp h with h | h
    · rcases max_choice a b with hm | hm
      · rw [List.foldl_cons, h, hm]; exact List.mem_cons_self a _
      · rw [List.foldl_cons, h, hm]
        exact List.mem_cons_of_mem a (List.mem_cons_self b t)
    · exact List.mem_cons_of_mem a (List.mem_cons_of_mem b h)

theorem listMin_le (l : List ℚ) (x : ℚ) (hx : x ∈ l) : listMin l ≤ x := by
  cases l with
  | nil => cases hx
  | cons a t =>
    rw [listMin]
    rcases List.mem_cons.mp hx with h | h
    · exact h ▸ foldl_min_le_init t a
    · exact foldl_min_le_mem t x h a

theorem listMin_mem (l : List ℚ) (h : l ≠ []) : listMin l ∈ l := by
  cases l with
  | nil => exact absurd rfl h
  | cons a t => exact foldl_min_mem t a

theorem le_listMax (l : List ℚ) (x : ℚ) (hx : x ∈ l) : x ≤ listMax l := by
  cases l with
  | nil => cases hx
  | cons a t =>
    rw [listMax]
    rcases List.mem_cons.mp hx with h | h
    · exact h ▸ le_foldl_max_init t a
    · exact mem_le_foldl_max t x h a

theorem listMax_mem (l : List ℚ) (h : l ≠ []) : listMax l ∈ l := by
  cases l with
  | nil => exact absurd rfl h
  | cons a t => exact foldl_max_mem t a

theorem length_flatMap_uniform {α β : Type} (f : α → List β) (L : Nat) :
    ∀ (l : List α), (∀ a ∈ l, (f a).length = L) → (l.flatMap f).length = l.length * L := by
  intro l
  induction l with
  | nil => intro _; simp
  | cons a t ih =>
    intro hb
    rw [List.flatMap_cons, List.length_append, hb a (List.mem_cons_self a t),
      ih (fun x hx => hb x (List.mem_cons_of_mem a hx)), List.length_cons]
    ring

theorem get?_flatMap_uniform {α β : Type} (f : α → List β) (L : Nat) :
    ∀ (l : List α) (k s : Nat), (∀ a ∈ l, (f a).length = L) →
      (hk : k < l.length) → s < L →
      (l.flatMap f).get? (k * L + s) = (f (l.get ⟨k, hk⟩)).get? s := by
  intro l
  induction l with
  | nil => intro k s _ hk; cases hk
  | cons a t ih =>
    intro k s hb hk hs
    cases k with
    | zero =>
      rw [List.flatMap_cons]
      have hlen : (f a).length = L := hb a (List.mem_cons_self a t)
      rw [Nat.zero_mul, Nat.zero_add]
      rw [List.get?_append (by omega)]
      rfl
    | succ m =>
      rw [List.flatMap_cons]
      have hlen : (f a).length = L := hb a (List.mem_cons_self a t)
      have hidx : (f a).length ≤ (m + 1) * L + s := by
        rw [hlen]
        have : L ≤ (m + 1) * L := Nat.le_mul_of_pos_left L (Nat.succ_pos m)
        omega
      rw [List.get?_append_right hidx]
      have harith : (m + 1) * L + s - (f a).length = m * L + s := by
        rw [hlen]
        have : (m + 1) * L = m * L + L := by ring
        omega
      rw [harith]
      have hkt : m < t.length := Nat.lt_of_succ_lt_succ hk
      rw [ih m s (fun x hx => hb x (List.mem_cons_of_mem a hx)) hkt hs]
      rfl

theorem symbolStatsInner_eq (preds targs : List (List ℚ)) (S sIdx i : Nat) (acc : Nat × Nat) :
    symbolStatsInner preds targs S sIdx i acc =
      (acc.1 + (List.range 3).countP (fun day => isCorrectAt preds targs i (sIdx + day * S)),
       acc.2 + 3) := by
  rcases acc with ⟨x, y⟩
  have h3 : List.range 3 = [0, 1, 2] := rfl
  rw [symbolStatsInner, h3]
  simp only [List.foldl_cons, List.foldl_nil, List.countP_cons, List.countP_nil]
  cases h0 : isCorrectAt preds targs i (sIdx + 0 * S) <;>
    cases h1 : isCorrectAt preds targs i (sIdx + 1 * S) <;>
      cases h2 : isCorrectAt preds targs i (sIdx + 2 * S) <;>
        simp [h0, h1, h2]

theorem symbolStats_eq (preds targs : List (List ℚ)) (S sIdx : Nat) :
    ∀ n, symbolStats preds targs S sIdx n =
      (((List.range n).map (fun i =>
          (List.range 3).countP (fun day => isCorrectAt preds targs i (sIdx + day * S)))).sum,
       3 * n) := by
  intro n
  induction n with
  | zero => simp [symbolStats]
  | succ m ih =>
    rw [symbolStats, List.range_succ, List.foldl_append, List.foldl_cons, List.foldl_nil]
    have hm : (List.range m).foldl
        (fun acc i => symbolStatsInner preds targs S sIdx i acc) (0, 0)
        = symbolStats preds targs S sIdx m := rfl
    rw [hm, ih, symbolStatsInner_eq]
    rw [List.range_succ, List.map_append, List.sum_append]
    simp only [List.map_cons, List.map_nil, List.sum_cons, List.sum_nil, Prod.mk.injEq]
    omega

theorem symbolStats_spec (preds targs : List (List ℚ)) (S sIdx : Nat) :
    symbolStats preds targs S sIdx preds.length =
      (correctCount preds targs S sIdx, 3 * preds.length) := by
  rw [symbolStats_eq, correctCount]

theorem computeStockAccuracy_get? (preds targs : List (List ℚ)) (syms : List String)
    (s : Nat) (hs : s < syms.length) :
    (computeStockAccuracy preds targs syms).get? s =
      some (syms.get ⟨s, hs⟩,
        (correctCount preds targs syms.length s : ℚ) / ((3 * preds.length : Nat) : ℚ)) := by
  rw [computeStockAccuracy, List.get?_eq_getElem?, List.getElem?_map, List.enum,
    List.getElem?_enumFrom]
  rw [List.getElem?_eq_getElem hs]
  simp only [Option.map_some', Nat.zero_add]
  rw [symbolStats_spec]
  rfl

/-- Claim C10: for every input text the first-draft CSV parser reads at most
the first 99 data lines and therefore returns at most 99 rows, and the
first-draft preprocessor keeps only the first 10 distinct symbols — caps the
spec never states. -/
theorem claim10_first_draft_caps (text : String) (rows : List Row1) :
    (parseCSV1 text).length ≤ 99 ∧ (stockSymbols1 rows).length ≤ 10 := by
  constructor
  · rw [parseCSV1]
    refine le_trans (List.length_filterMap_le _ _) ?_
    rw [List.length_take]
    exact min_le_left _ _
  · rw [stockSymbols1, List.length_take]
    exact min_le_left _ _

/-- Claim C7 amended: for every input text with fewer than 2 lines the CSV
parser returns the empty row list; it does not fail, and no FormatError
exists anywhere in the code. -/
theorem claim7_short_input (text : String) (h : (jsLines text).length < 2) :
    parseCSV text = [] := by
  rw [parseCSV]
  have hd : (jsLines text).drop 1 = [] := List.drop_eq_nil_of_le (by omega)
  rw [hd, List.filterMap_nil]

/-- Witness for claim C7: the empty text has a single line after trimming
and parses to the empty row list. -/
theorem claim7_witness : parseCSV "" = [] :=
  claim7_short_input "" (by decide)

/-- Counterexample for claim C7 as stated: a header-only CSV has fewer than
2 lines, yet parseCSV returns normally with an (empty) row list instead of
failing with a FormatError; no error path exists in any parseCSV draft. -/
theorem claim7_counterexample :
    (jsLines "Date,Symbol,Open,Close").length < 2 ∧
      parseCSV "Date,Symbol,Open,Close" = [] := by
  exact ⟨by decide, by decide⟩

/-- Claim C8 amended: when the distinct dates are too few to produce any
window — in particular when the row list is empty — the sequence builder
returns a dataset whose train and test arrays are all empty (empty-shaped
tensors) instead of failing; no DataError exists anywhere in the code. -/
theorem claim8_empty_shapes (rows : List Row)
    (h : (rows.map (fun r => r.Date)).toFinset.card ≤ 15) :
    (preprocessData rows).X_train = [] ∧ (preprocessData rows).y_train = [] ∧
      (preprocessData rows).X_test = [] ∧ (preprocessData rows).y_test = [] := by
  have hlen : (allDates rows).length ≤ 15 := by
    rw [allDates, length_sortedDistinct]
    exact h
  have hz : (allDates rows).length - 15 = 0 := by omega
  rw [preprocessData, createSequencesP2, hz]
  simp

/-- Witness for claim C8 at the empty row list. -/
theorem claim8_witness :
    (preprocessData []).X_train = [] ∧ (preprocessData []).y_train = [] ∧
      (preprocessData []).X_test = [] ∧ (preprocessData []).y_test = [] :=
  claim8_empty_shapes [] (by decide)

/-- Counterexample for claim C8 as stated: on the empty row list the builder
returns normally with the empty-shaped dataset rather than failing with a
DataError. -/
theorem claim8_counterexample : preprocessData [] = ⟨[], [], [], [], []⟩ := by decide

/-- Claim C9 amended: when predictions or targets are absent the evaluator
raises a TypeError from arraySync (callers catch it) instead of returning an
empty mapping; for well-formed inputs it returns per symbol the ratio of
correct comparisons over all samples and the 3 day offsets, at flat index
s + offset * numSymbols, with predictions thresholded at 0.5. -/
theorem claim9_accuracy (preds targs : List (List ℚ)) (syms : List String)
    (s : Nat) (hs : s < syms.length) (_hn : preds ≠ []) :
    computeStockAccuracyJS none (some targs) syms = Except.error "TypeError" ∧
    computeStockAccuracyJS (some preds) none syms = Except.error "TypeError" ∧
    (computeStockAccuracy preds targs syms).get? s =
      some (syms.get ⟨s, hs⟩,
        (correctCount preds targs syms.length s : ℚ) / ((3 * preds.length : Nat) : ℚ)) :=
  ⟨rfl, rfl, computeStockAccuracy_get? preds targs syms s hs⟩

/-- Witness for claim C9 at one symbol and one sample. -/
theorem claim9_witness :
    computeStockAccuracyJS none (some [[(1 : ℚ), 0, 1]]) ["A"] = Except.error "TypeError" ∧
    computeStockAccuracyJS (some [[(1 : ℚ), 0, 1]]) none ["A"] = Except.error "TypeError" ∧
    (computeStockAccuracy [[(1 : ℚ), 0, 1]] [[(1 : ℚ), 0, 1]] ["A"]).get? 0 =
      some (("A" : String),
        (correctCount [[(1 : ℚ), 0, 1]] [[(1 : ℚ), 0, 1]] 1 0 : ℚ) / ((3 * 1 : Nat) : ℚ)) :=
  claim9_accuracy [[(1 : ℚ), 0, 1]] [[(1 : ℚ), 0, 1]] ["A"] 0 (by decide) (by decide)

/-- Counterexample for claim C9 as stated: with absent predictions the
evaluator raises a TypeError instead of returning an empty mapping. -/
theorem claim9_counterexample :
    computeStockAccuracyJS none (some [[(1 : ℚ)]]) ["A"] = Except.error "TypeError" := rfl

/-- Claim C2 amended: the pivot stores, for each (date, symbol) pair, the
open and close of the FIRST matching row in input order, because
Array.prototype.find returns the first match. -/
theorem claim2_first_wins (l1 l2 : List Row) (r : Row)
    (h1 : ∀ q ∈ l1, ¬(q.Date = r.Date ∧ q.Symbol = r.Symbol)) :
    getCell (pivotPanel (l1 ++ r :: l2) (allDates (l1 ++ r :: l2))
        (stockSymbolsP2 (l1 ++ r :: l2))) r.Date r.Symbol
      = some ⟨r.Open, r.Close⟩ := by
  have hmem : r ∈ l1 ++ r :: l2 := List.mem_append_right l1 (List.mem_cons_self r l2)
  have hd : r.Date ∈ allDates (l1 ++ r :: l2) := by
    rw [allDates, mem_sortedDistinct]
    exact List.mem_map_of_mem (fun q => q.Date) hmem
  have hsym : r.Symbol ∈ stockSymbolsP2 (l1 ++ r :: l2) := by
    rw [stockSymbolsP2, mem_sortedDistinct]
    exact List.mem_map_of_mem (fun q => q.Symbol) hmem
  rw [pivotPanel, getCell_mkPanel _ _ _ _ _ hd (nodup_sortedDistinct _) hsym
    (nodup_sortedDistinct _)]
  rw [pivotCellFn, List.find?_append]
  have hnone : l1.find? (fun q => q.Date == r.Date && q.Symbol == r.Symbol) = none := by
    rw [List.find?_eq_none]
    intro q hq
    have hq1 := h1 q hq
    simp only [Bool.and_eq_true, beq_iff_eq]
    exact fun hc => hq1 ⟨hc.1, hc.2⟩
  rw [hnone, Option.none_or, List.find?_cons_of_pos _ (by simp)]
  rfl

/-- Witness for claim C2: a non-matching earlier row does not shadow the
first matching row. -/
theorem claim2_witness :
    getCell (pivotPanel [⟨"d2", "B", 5, 6⟩, ⟨"d1", "A", 1, 2⟩, ⟨"d1", "A", 3, 4⟩]
        (allDates [⟨"d2", "B", 5, 6⟩, ⟨"d1", "A", 1, 2⟩, ⟨"d1", "A", 3, 4⟩])
        (stockSymbolsP2 [⟨"d2", "B", 5, 6⟩, ⟨"d1", "A", 1, 2⟩, ⟨"d1", "A", 3, 4⟩]))
      "d1" "A" = some ⟨1, 2⟩ :=
  claim2_first_wins [⟨"d2", "B", 5, 6⟩] [⟨"d1", "A", 3, 4⟩] ⟨"d1", "A", 1, 2⟩ (by decide)

/-- Duplicate rows for the (date, symbol) pair (d1, A) with different
prices, used to refute the last-one-wins claim. -/
def c2rows : List Row := [⟨"d1", "A", 1, 2⟩, ⟨"d1", "A", 3, 4⟩]

/-- Counterexample for claim C2 as stated: with two rows for the same
(date, symbol) pair the pivot stores the first row's prices (1, 2), not the
prices (3, 4) of the last such row. -/
theorem claim2_counterexample :
    getCell (pivotPanel c2rows (allDates c2rows) (stockSymbolsP2 c2rows)) "d1" "A"
        = some ⟨1, 2⟩ ∧
      (⟨1, 2⟩ : Cell) ≠ ⟨3, 4⟩ :=
  ⟨by decide, by decide⟩

/-- Claim C6: for every (non-empty) row list the symbols list returned in
the Dataset of the part 002 builder is the sorted distinct set of the row
symbols: sorted in JS string order, duplicate-free, and containing exactly
the observed symbols. -/
theorem claim6_sorted_symbols (rows : List Row) (_hne : rows ≠ []) :
    (preprocessData rows).symbols = sortedDistinct (rows.map (fun r => r.Symbol)) ∧
    List.Sorted (fun a b => jsStrLe a b = true) ((preprocessData rows).symbols) ∧
    ((preprocessData rows).symbols).Nodup ∧
    ∀ s, s ∈ (preprocessData rows).symbols ↔ s ∈ rows.map (fun r => r.Symbol) := by
  have hsymb : (preprocessData rows).symbols
      = sortedDistinct (rows.map (fun r => r.Symbol)) := rfl
  refine ⟨hsymb, ?_, ?_, ?_⟩
  · rw [hsymb]
    exact sorted_sortedDistinct _
  · rw [hsymb]
    exact nodup_sortedDistinct _
  · intro s
    rw [hsymb]
    exact mem_sortedDistinct s _

/-- Witness for claim C6: two rows with symbols B and A yield the sorted
symbol list [A, B]. -/
theorem claim6_witness :
    (preprocessData [⟨"d1", "B", 1, 2⟩, ⟨"d1", "A", 1, 2⟩]).symbols = ["A", "B"] := by
  have h := claim6_sorted_symbols [⟨"d1", "B", 1, 2⟩, ⟨"d1", "A", 1, 2⟩] (by decide)
  rw [h.1]
  decide

/-- Claim C3: for every row list the number of sequences produced by the
keep-all createSequences of the second data-loader draft equals
max(0, numDates - 12 - 3), numDates being the number of distinct dates. -/
theorem claim3_sequence_count (rows : List Row) (syms : List String)
    (panel : String → String → Option Cell) :
    ((createSequences (allDates rows) syms panel).X_train.length : ℤ) +
      ((createSequences (allDates rows) syms panel).X_test.length : ℤ) =
      max 0 (((rows.map (fun r => r.Date)).toFinset.card : ℤ) - 12 - 3) := by
  have hX : (createSequences (allDates rows) syms panel).X_train.length
      + (createSequences (allDates rows) syms panel).X_test.length
      = (allDates rows).length - 15 := by
    rw [createSequences]
    simp only [List.length_take, List.length_drop, List.length_map, List.length_range]
    omega
  have hcard : (allDates rows).length = (rows.map (fun r => r.Date)).toFinset.card := by
    rw [allDates, length_sortedDistinct]
  rw [hcard] at hX
  omega

theorem getD_eq_get_of_lt (l : List String) (k : Nat) (hk : k < l.length) :
    l.getD k "" = l.get ⟨k, hk⟩ := by
  rw [List.getD_eq_get?, List.get?_eq_get hk]
  rfl

/-- Claim C1 amended: the windows are split chronologically — the first
floor(0.8 count) in window order go to train, the remainder to test — and
every test window STARTS at a strictly later date than every train window.
Full date-disjointness fails because consecutive windows overlap; see the
counterexample. -/
theorem claim1_chronological_split (rows : List Row) (syms : List String)
    (panel : String → String → Option Cell) (i j : Nat)
    (hi : i < 4 * ((allDates rows).length - 15) / 5)
    (hj1 : 4 * ((allDates rows).length - 15) / 5 ≤ j)
    (hj2 : j < (allDates rows).length - 15) :
    (createSequences (allDates rows) syms panel).X_train =
      ((List.range ((allDates rows).length - 15)).map
        (windowInput (allDates rows) syms panel)).take
          (4 * ((allDates rows).length - 15) / 5) ∧
    (createSequences (allDates rows) syms panel).X_test =
      ((List.range ((allDates rows).length - 15)).map
        (windowInput (allDates rows) syms panel)).drop
          (4 * ((allDates rows).length - 15) / 5) ∧
    jsStrLt ((allDates rows).getD i "") ((allDates rows).getD j "") = true := by
  have hij : i < j := lt_of_lt_of_le hi hj1
  have hjlen : j < (allDates rows).length := lt_of_lt_of_le hj2 (Nat.sub_le _ _)
  have hilen : i < (allDates rows).length := lt_trans hij hjlen
  refine ⟨?_, ?_, ?_⟩
  · rw [createSequences]
    simp only [List.length_map, List.length_range]
  · rw [createSequences]
    simp only [List.length_map, List.length_range]
  · have hpair := sortedDistinct_strict (rows.map (fun r => r.Date))
    rw [getD_eq_get_of_lt _ i hilen, getD_eq_get_of_lt _ j hjlen]
    exact List.pairwise_iff_get.mp hpair ⟨i, hilen⟩ ⟨j, hjlen⟩ hij

/-- Seventeen consecutive dates used for the split counterexample. -/
def c1dates : List String :=
  ["d01", "d02", "d03", "d04", "d05", "d06", "d07", "d08", "d09", "d10",
   "d11", "d12", "d13", "d14", "d15", "d16", "d17"]

/-- One row per date for a single symbol A. -/
def c1rows : List Row := c1dates.map (fun d => ⟨d, "A", 1, 1⟩)

/-- Normalized panel of the c1 rows, as the pipeline builds it. -/
def c1panel (d s : String) : Option Cell :=
  getCell (minMaxNormalize (pivotPanel c1rows (allDates c1rows) (stockSymbolsP2 c1rows))
    (allDates c1rows) (stockSymbolsP2 c1rows)) d s

/-- Witness for claim C1: with 17 dates there are 2 windows, the split index
is 1, and the test window (start index 1) starts strictly later than the
train window (start index 0). -/
theorem claim1_witness :
    jsStrLt ((allDates c1rows).getD 0 "") ((allDates c1rows).getD 1 "") = true :=
  (claim1_chronological_split c1rows (stockSymbolsP2 c1rows) c1panel 0 1
    (by decide) (by decide) (by decide)).2.2

/-- Counterexample for claim C1 as stated: with 17 dates and one symbol the
builder produces 2 windows, window 0 goes to train and window 1 to test,
yet date d02 underlies the test window while date d16 underlies the train
window and d02 is not later than d16 — consecutive windows overlap, so the
dates underlying the test set are not all later than the dates underlying
the train set. -/
theorem claim1_counterexample :
    (createSequences (allDates c1rows) (stockSymbolsP2 c1rows) c1panel).X_train.length = 1 ∧
    (createSequences (allDates c1rows) (stockSymbolsP2 c1rows) c1panel).X_test.length = 1 ∧
    "d02" ∈ specWindowDates (allDates c1rows) 1 ∧
    "d16" ∈ specWindowDates (allDates c1rows) 0 ∧
    ¬ (jsStrLt "d16" "d02" = true) :=
  ⟨by decide, by decide, by decide, by decide, by decide⟩

/-- Claim C4: for a symbol with at least one observed value, minMaxNormalize
computes (v - min) / (max - min || 1) per feature, so the observed minimum
normalizes to 0, the observed maximum normalizes to 1 when the range is
non-degenerate, and when all observed values are equal every normalized
value is 0 (range defaults to 1, numerator is 0). -/
theorem claim4_minmax_normalization (p : Panel) (dates syms : List String)
    (d s : String) (c : Cell) (hd : d ∈ dates) (hnd : dates.Nodup)
    (hs : s ∈ syms) (hns : syms.Nodup) (hc : getCell p d s = some c) :
    ∃ nc,
      getCell (minMaxNormalize p dates syms) d s = some nc ∧
      nc.Open = (c.Open - listMin (observedOpens p dates s)) /
        orOne (listMax (observedOpens p dates s) - listMin (observedOpens p dates s)) ∧
      nc.Close = (c.Close - listMin (observedCloses p dates s)) /
        orOne (listMax (observedCloses p dates s) - listMin (observedCloses p dates s)) ∧
      (c.Open = listMin (observedOpens p dates s) → nc.Open = 0) ∧
      (c.Close = listMin (observedCloses p dates s) → nc.Close = 0) ∧
      (c.Open = listMax (observedOpens p dates s) →
        listMin (observedOpens p dates s) ≠ listMax (observedOpens p dates s) →
        nc.Open = 1) ∧
      (c.Close = listMax (observedCloses p dates s) →
        listMin (observedCloses p dates s) ≠ listMax (observedCloses p dates s) →
        nc.Close = 1) ∧
      ((∀ x ∈ observedOpens p dates s, x = c.Open) → nc.Open = 0) ∧
      ((∀ x ∈ observedCloses p dates s, x = c.Close) → nc.Close = 0) := by
  have hobsO : c.Open ∈ observedOpens p dates s := by
    rw [observedOpens]
    exact List.mem_filterMap.mpr ⟨d, hd, by rw [hc]; rfl⟩
  have hobsC : c.Close ∈ observedCloses p dates s := by
    rw [observedCloses]
    exact List.mem_filterMap.mpr ⟨d, hd, by rw [hc]; rfl⟩
  have hneO : observedOpens p dates s ≠ [] := by
    intro he
    rw [he] at hobsO
    cases hobsO
  have hneC : observedCloses p dates s ≠ [] := by
    intro he
    rw [he] at hobsC
    cases hobsC
  have hemptyO : (observedOpens p dates s).isEmpty = false := by
    cases hl : observedOpens p dates s with
    | nil => exact absurd hl hneO
    | cons a t => rfl
  have hemptyC : (observedCloses p dates s).isEmpty = false := by
    cases hl : observedCloses p dates s with
    | nil => exact absurd hl hneC
    | cons a t => rfl
  have hstats : stockStats p dates s =
      ⟨listMin (observedOpens p dates s), listMax (observedOpens p dates s),
       listMin (observedCloses p dates s), listMax (observedCloses p dates s)⟩ := by
    rw [stockStats]
    simp only [hemptyO, hemptyC, Bool.or_self, if_neg]
    simp
  have hmain : getCell (minMaxNormalize p dates syms) d s =
      some (normalizeCell (stockStats p dates s) c) := by
    rw [minMaxNormalize, getCell_mkPanel dates syms _ d s hd hnd hs hns, hc]
    rfl
  refine ⟨normalizeCell (stockStats p dates s) c, hmain, ?_, ?_, ?_, ?_, ?_, ?_, ?_, ?_⟩
  · rw [hstats]
    rfl
  · rw [hstats]
    rfl
  · intro h
    rw [hstats]
    show (c.Open - listMin (observedOpens p dates s)) / _ = 0
    rw [← h, sub_self, zero_div]
  · intro h
    rw [hstats]
    show (c.Close - listMin (observedCloses p dates s)) / _ = 0
    rw [← h, sub_self, zero_div]
  · intro h hne
    rw [hstats]
    show (c.Open - listMin (observedOpens p dates s)) /
      orOne (listMax (observedOpens p dates s) - listMin (observedOpens p dates s)) = 1
    have hnz : listMax (observedOpens p dates s) - listMin (observedOpens p dates s) ≠ 0 :=
      sub_ne_zero.mpr (Ne.symm hne)
    rw [h, orOne, if_neg hnz]
    exact div_self hnz
  · intro h hne
    rw [hstats]
    show (c.Close - listMin (observedCloses p dates s)) /
      orOne (listMax (observedCloses p dates s) - listMin (observedCloses p dates s)) = 1
    have hnz : listMax (observedCloses p dates s) - listMin (observedCloses p dates s) ≠ 0 :=
      sub_ne_zero.mpr (Ne.symm hne)
    rw [h, orOne, if_neg hnz]
    exact div_self hnz
  · intro h
    rw [hstats]
    show (c.Open - listMin (observedOpens p dates s)) / _ = 0
    rw [h (listMin (observedOpens p dates s)) (listMin_mem _ hneO), sub_self, zero_div]
  · intro h
    rw [hstats]
    show (c.Close - listMin (observedCloses p dates s)) / _ = 0
    rw [h (listMin (observedCloses p dates s)) (listMin_mem _ hneC), sub_self, zero_div]

/-- Pivot with one symbol observed on two dates: opens 1 and 3, closes both
5, used to witness claim C4. -/
def c4pivot : Panel := [("x", [("A", ⟨1, 5⟩)]), ("y", [("A", ⟨3, 5⟩)])]

/-- Witness for claim C4: at the cell whose open equals the observed
minimum the normalized open is 0, and since all observed closes are equal
the normalized close is 0 as well. -/
theorem claim4_witness :
    ∃ nc, getCell (minMaxNormalize c4pivot ["x", "y"] ["A"]) "x" "A" = some nc ∧
      nc.Open = 0 ∧ nc.Close = 0 := by
  obtain ⟨nc, hget, _, _, hminO, _, _, _, _, hallC⟩ :=
    claim4_minmax_normalization c4pivot ["x", "y"] ["A"] "x" "A" ⟨1, 5⟩
      (by decide) (by decide) (by decide) (by decide) (by decide)
  exact ⟨nc, hget, hminO (by decide), hallC (by decide)⟩

/-- Claim C5 amended: the target entry at flat position
offset * numSymbols + s is targetBit, which is 1 exactly when the future
normalized close is present and exceeds the base value, the base value
being the normalized close at the target date when present and 0 when
missing; a missing future value gives 0, but a missing BASE value does not
force the bit to 0. -/
theorem claim5_target_layout (dates syms : List String)
    (panel : String → String → Option Cell) (i off s : Nat)
    (hoff : off < 3) (hs : s < syms.length) :
    (windowTarget dates syms panel i).get? (off * syms.length + s) =
      some (targetBit dates panel i off (syms.get ⟨s, hs⟩)) := by
  rw [windowTarget]
  rw [get?_flatMap_uniform (fun o => syms.map (fun t => targetBit dates panel i o t))
    syms.length (List.range 3) off s (fun a _ => List.length_map syms _)
    (by simpa using hoff) hs]
  rw [List.get?_map, List.get?_eq_get hs, List.get_range]
  rfl

/-- Sixteen consecutive dates feeding exactly one window. -/
def c5dates : List String :=
  ["e00", "e01", "e02", "e03", "e04", "e05", "e06", "e07", "e08", "e09",
   "e10", "e11", "e12", "e13", "e14", "e15"]

/-- Sparse normalized panel: symbol B has data only on date e13 (close 1);
in particular B is missing on the target date e12. -/
def c5panelList : Panel := [("e13", [("B", ⟨1, 1⟩)])]

/-- Lookup into the sparse panel. -/
def c5panel (d s : String) : Option Cell := getCell c5panelList d s

/-- Witness for claim C5 at the window starting at index 0, day offset 1,
symbol B (flat position 1). -/
theorem claim5_witness :
    (windowTarget c5dates ["A", "B"] c5panel 0).get? (0 * 2 + 1) =
      some (targetBit c5dates c5panel 0 0 "B") :=
  claim5_target_layout c5dates ["A", "B"] c5panel 0 0 1 (by decide) (by decide)

/-- Counterexample for claim C5 as stated: the base value (normalized close
of B on the target date e12) is missing from the panel, yet the produced
target bit for (B, offset 1) is 1, not 0 — the missing base is replaced by
0 and the comparison 1 > 0 fires. -/
theorem claim5_counterexample :
    c5panel "e12" "B" = none ∧
    ((createSequences c5dates ["A", "B"] c5panel).y_test.get? 0).bind
      (fun t => t.get? 1) = some 1 :=
  ⟨by decide, by decide⟩

end StockGru
